import Mathlib

/-!
Verification of the core logic of a prayer-times messaging bot.

The development shallowly embeds, from the sources:
- the next-prayer resolver IslamicBot.get_next_prayer (bot.py),
- the reminder scheduler IslamicBot.schedule_prayer_notifications (bot.py),
- the streak computation IslamicBot.calculate_streak (bot.py),
- the persistence operations Database.mark_prayer_completed,
  Database.get_prayer_stats and Database.toggle_notifications (database.py,
  SQLite backend, the one the claims cite).

Times are modelled as seconds since local midnight (an Int), calendar dates
as day numbers (an Int), and Python strings as Lean String values.
-/

/-- The five actionable prayers, in canonical order.  The sixth timing
(sunrise) is informational only and never reaches the modelled functions. -/
inductive Prayer
  | fajr
  | dhuhr
  | asr
  | maghrib
  | isha
deriving DecidableEq, Fintype

/-- Canonical order of the five prayers: the list prayer_names of bot.py
(keys are the Russian names; here the abstract constructors). -/
def prayer_names : List Prayer := [.fajr, .dhuhr, .asr, .maghrib, .isha]

/-- The Russian display name of each prayer, exactly the dictionary keys
used throughout bot.py. -/
def prayerRu : Prayer → String
  | .fajr => "Фаджр"
  | .dhuhr => "Зухр"
  | .asr => "Аср"
  | .maghrib => "Магриб"
  | .isha => "Иша"

/-- Position of a prayer in canonical order (used to state tie-breaking). -/
def prayerIdx : Prayer → Nat
  | .fajr => 0
  | .dhuhr => 1
  | .asr => 2
  | .maghrib => 3
  | .isha => 4

/-- A timing map: the five actionable entries of the dictionary built by
get_prayer_times_sync.  A missing key is modelled by the empty string,
matching times.get(prayer, ...) with empty-string default in bot.py. -/
structure Timings where
  fajr : String
  dhuhr : String
  asr : String
  maghrib : String
  isha : String
deriving DecidableEq

/-- Dictionary lookup times.get(prayer) for the five actionable keys. -/
def Timings.get (t : Timings) : Prayer → String
  | .fajr => t.fajr
  | .dhuhr => t.dhuhr
  | .asr => t.asr
  | .maghrib => t.maghrib
  | .isha => t.isha

/-- Replace one entry of a timing map (used to state that a malformed entry
behaves exactly like an absent one). -/
def Timings.set (t : Timings) : Prayer → String → Timings
  | .fajr, s => { t with fajr := s }
  | .dhuhr, s => { t with dhuhr := s }
  | .asr, s => { t with asr := s }
  | .maghrib, s => { t with maghrib := s }
  | .isha, s => { t with isha := s }

/-- Python str.split with separator given by one character: splitting the
empty string yields one empty field, and every separator occurrence starts a
new field. -/
def pySplitOn (sep : Char) : List Char → List (List Char)
  | [] => [[]]
  | c :: cs =>
    let r := pySplitOn sep cs
    if c = sep then [] :: r
    else
      match r with
      | [] => [[c]]
      | g :: gs => (c :: g) :: gs

/-- Value of a nonempty all-decimal-digit character list. -/
def decDigitsVal (l : List Char) : Nat :=
  l.foldl (fun a c => a * 10 + (c.toNat - 48)) 0

/-- Decimal digit run, or none. -/
def decDigits? (l : List Char) : Option Nat :=
  if l ≠ [] ∧ l.all (fun c => c.isDigit) then some (decDigitsVal l) else none

/-- Python int(s) on a character list: an optional sign followed by decimal
digits; anything else raises ValueError, modelled as none.  (Python also
tolerates surrounding whitespace, underscores between digits and non-ASCII
digits; none of those occur in the timing strings at issue, so they are not
modelled.) -/
def pyInt? : List Char → Option Int
  | '-' :: rest => (decDigits? rest).map (fun n => -(n : Int))
  | '+' :: rest => (decDigits? rest).map (fun n => (n : Int))
  | l => (decDigits? l).map (fun n => (n : Int))

/-- hour, minute = map(int, s.split(their separator)): succeeds only when the
split has exactly two fields and both parse as Python ints; the ValueError
raised otherwise is modelled as none. -/
def parseHM? (s : String) : Option (Int × Int) :=
  match (pySplitOn ':' s.data).map pyInt? with
  | [some h, some m] => some (h, m)
  | _ => none

/-- Parsed hour and minute accepted by datetime.replace and by CronTrigger:
both raise ValueError outside 0..23 and 0..59, modelled as none. -/
def hmValid? (s : String) : Option (Int × Int) :=
  match parseHM? s with
  | some (h, m) => if 0 ≤ h ∧ h ≤ 23 ∧ 0 ≤ m ∧ m ≤ 59 then some (h, m) else none
  | none => none

/-- Clock time of a well-formed timing string, in seconds since midnight. -/
def clockSec? (s : String) : Option Int :=
  (hmValid? s).map (fun hm => hm.1 * 3600 + hm.2 * 60)

/-- The candidate timestamp built for one prayer inside get_next_prayer:
now.replace(hour, minute, second=0, microsecond=0), advanced by one day when
not strictly after now (prayer_datetime <= now).  Returns the candidate in
seconds since midnight of the current day, together with the flag
prayer_datetime.date() > now.date().  A string on which parsing or replace
raises ValueError yields none (the except branch skips the prayer). -/
def candidate (now : Int) (s : String) : Option (Int × Bool) :=
  (clockSec? s).map (fun t => if t ≤ now then (t + 86400, true) else (t, false))

/-- One iteration of the loop of get_next_prayer over prayer_names: the
accumulator holds the best (prayer, its raw string, its time delta from now,
its tomorrow flag) so far, none before the first valid entry.  The update
condition min_time_diff is None or time_diff < min_time_diff keeps the
earlier prayer on ties. -/
def stepNext (now : Int) (acc : Option (Prayer × String × Int × Bool)) (p : Prayer)
    (s : String) : Option (Prayer × String × Int × Bool) :=
  if s = "" then acc
  else
    match candidate now s with
    | none => acc
    | some (t, tom) =>
      let dt := t - now
      match acc with
      | none => some (p, s, dt, tom)
      | some (p0, s0, dt0, tom0) =>
        if dt < dt0 then some (p, s, dt, tom) else some (p0, s0, dt0, tom0)

/-- IslamicBot.get_next_prayer: fold the loop over the five prayers in
canonical order and return the winning prayer, its raw time string and
whether it falls on the next day (the Python code formats these three data
into the returned message; None when every entry was skipped). -/
def get_next_prayer (times : Timings) (now : Int) : Option (Prayer × String × Bool) :=
  (prayer_names.foldl (fun acc p => stepNext now acc p (times.get p)) none).map
    (fun x => (x.1, x.2.1, x.2.2.2))

/-- Successor in canonical prayer order, wrapping from Isha to Fajr. -/
def nextInOrder : Prayer → Prayer
  | .fajr => .dhuhr
  | .dhuhr => .asr
  | .asr => .maghrib
  | .maghrib => .isha
  | .isha => .fajr

/-- The timing map of the scenario in the specification. -/
def timingsEx : Timings :=
  { fajr := "05:10", dhuhr := "12:30", asr := "16:00", maghrib := "18:45", isha := "20:15" }

/-- A timing map whose times are not in canonical order (Dhuhr listed before
Fajr in clock time), used against the exact-equality claim. -/
def timingsC5 : Timings :=
  { fajr := "06:00", dhuhr := "05:00", asr := "12:00", maghrib := "18:00", isha := "20:00" }

/-- The clock times of timingsEx, in seconds since midnight. -/
def exT : Prayer → Int
  | .fajr => 18600
  | .dhuhr => 45000
  | .asr => 57600
  | .maghrib => 67500
  | .isha => 72900

/-- timingsEx with one malformed entry. -/
def timingsMal : Timings :=
  { fajr := "05:10", dhuhr := "abc", asr := "16:00", maghrib := "18:45", isha := "20:15" }

/-- A timing map in which every entry is malformed in a different way. -/
def timingsBad : Timings :=
  { fajr := "", dhuhr := "xx", asr := "25:00", maghrib := "12", isha := "1:2:3" }

/-- Python pattern-prefix test: does the text start with the pattern? -/
def pyStartsWith : List Char → List Char → Bool
  | [], _ => true
  | _ :: _, [] => false
  | p :: ps, t :: ts => p == t && pyStartsWith ps ts

/-- The Python substring operator pat in text: the pattern occurs contiguously
somewhere in the text (the empty pattern occurs everywhere). -/
def pySubstr (pat : List Char) : List Char → Bool
  | [] => pat.isEmpty
  | t :: ts => pyStartsWith pat (t :: ts) || pySubstr pat ts

/-- An APScheduler job as the scheduler state keeps it: its string id and the
daily CronTrigger hour and minute.  The callback arguments are determined by
the id, so they are not modelled separately. -/
structure Job where
  id : String
  hour : Int
  minute : Int
deriving DecidableEq

/-- The job id built in schedule_prayer_notifications: the f-string
prayer_{user_id}_{prayer_name}.  The user id is taken already rendered in
decimal (str(user_id)). -/
def jobId (uid : String) (p : Prayer) : String :=
  "prayer_" ++ uid ++ "_" ++ prayerRu p

/-- scheduler.add_job with replace_existing=True: any job with the same id is
replaced by the new one. -/
def add_job (js : List Job) (j : Job) : List Job :=
  js.filter (fun x => !(x.id == j.id)) ++ [j]

/-- IslamicBot.schedule_prayer_notifications, given the outcome of the timing
fetch (None on network or parse failure).  On a failed fetch it returns
early, leaving the job list untouched.  Otherwise it first removes every job
whose id contains str(user_id) as a substring, then adds one cron job per
actionable prayer.  A timing string on which int() or CronTrigger raises
ValueError aborts the coroutine; that exceptional exit is modelled as none. -/
def schedule_prayer_notifications (uid : String) (fetched : Option Timings)
    (jobs : List Job) : Option (List Job) :=
  match fetched with
  | none => some jobs
  | some times =>
    let jobs1 := jobs.filter (fun j => !(pySubstr uid.data j.id.data))
    prayer_names.foldlM
      (fun js p =>
        (hmValid? (times.get p)).map
          (fun hm => add_job js { id := jobId uid p, hour := hm.1, minute := hm.2 }))
      jobs1

/-- Does a job belong to the given user, in the intended sense: its id is one
of the five ids prayer_{uid}_{prayer}? -/
def isUserJob (uid : String) (j : Job) : Bool :=
  j.id == jobId uid .fajr || j.id == jobId uid .dhuhr || j.id == jobId uid .asr ||
    j.id == jobId uid .maghrib || j.id == jobId uid .isha

/-- The jobs of the given user present in a scheduler state. -/
def userJobs (uid : String) (js : List Job) : List Job :=
  js.filter (isUserJob uid)

/-- The five jobs of user id 123, as installed by a successful invocation of
the scheduler for that user with the timings of the scenario. -/
def jobs123 : List Job :=
  [ { id := "prayer_123_Фаджр", hour := 5, minute := 10 },
    { id := "prayer_123_Зухр", hour := 12, minute := 30 },
    { id := "prayer_123_Аср", hour := 16, minute := 0 },
    { id := "prayer_123_Магриб", hour := 18, minute := 45 },
    { id := "prayer_123_Иша", hour := 20, minute := 15 } ]

/-- The scheduler state produced by a successful invocation for user id 7
with the scenario timings, starting from an empty scheduler. -/
def jobs7 : List Job :=
  [ { id := "prayer_7_Фаджр", hour := 5, minute := 10 },
    { id := "prayer_7_Зухр", hour := 12, minute := 30 },
    { id := "prayer_7_Аср", hour := 16, minute := 0 },
    { id := "prayer_7_Магриб", hour := 18, minute := 45 },
    { id := "prayer_7_Иша", hour := 20, minute := 15 } ]

/-- One row of the prayer_stats table (SQLite backend): the autoincrement id,
user_id, prayer_name, prayer_date (a day number), completed and completed_at.
The SQLite schema puts no UNIQUE constraint on (user_id, prayer_name,
prayer_date); the table is a plain list of rows. -/
structure StatRow where
  rid : Nat
  user : Int
  prayer : String
  date : Int
  completed : Bool
  completedAt : Int
deriving DecidableEq

/-- Database.get_prayer_stats(user_id, days): the rows of the given user
whose prayer_date is on or after today minus days.  (The descending date
ordering of the SQL query is irrelevant to every caller modelled here, which
only filters and counts the rows.) -/
def get_prayer_stats (db : List StatRow) (user : Int) (today : Int) (days : Int) :
    List StatRow :=
  db.filter (fun r => r.user == user && decide (today - days ≤ r.date))

/-- Database.mark_prayer_completed on the SQLite backend: INSERT OR REPLACE
with the id column omitted.  The id is NULL, so AUTOINCREMENT assigns a fresh
id, and since the SQLite schema declares no UNIQUE constraint on (user_id,
prayer_name, prayer_date) no conflict can arise: the statement is a plain
insert of a new completed row.  The fresh id is modelled as the row count
(rows are never deleted by the modelled operations). -/
def mark_prayer_completed (db : List StatRow) (user : Int) (prayer : String)
    (today ts : Int) : List StatRow :=
  db ++ [{ rid := db.length, user := user, prayer := prayer, date := today,
           completed := true, completedAt := ts }]

/-- The rows of the day being examined by one iteration of calculate_streak:
the stats fetched with days=1, narrowed to the rows whose prayer_date equals
current_date and are completed. -/
def day_stats (db : List StatRow) (user today current_date : Int) : List StatRow :=
  (get_prayer_stats db user today 1).filter
    (fun r => r.date == current_date && r.completed)

/-- The while-True loop of IslamicBot.calculate_streak.  Each pass fetches
get_prayer_stats(user_id, days=1), counts the day when it has a completed row
dated current_date, breaks on the first empty day, and breaks after the
increment once streak exceeds 100.  The loop body increments streak on every
pass that recurses, so the guard streak > 100 exits before a 102nd counted
pass: fuel 101 is never exhausted, and the fuel-0 branch is unreachable. -/
def streakLoop (db : List StatRow) (user today : Int) :
    Nat → Nat → Int → Nat
  | 0, streak, _ => streak
  | fuel + 1, streak, current_date =>
    if (day_stats db user today current_date).isEmpty then streak
    else if streak + 1 > 100 then streak + 1
    else streakLoop db user today fuel (streak + 1) (current_date - 1)

/-- IslamicBot.calculate_streak: run the loop from streak 0 at the current
date. -/
def calculate_streak (db : List StatRow) (user today : Int) : Nat :=
  streakLoop db user today 101 0 today

/-- A completion store with one completed prayer on each of the five
consecutive days 996..1000 for user 1 and nothing else (day 1000 playing
today). -/
def store5 : List StatRow :=
  [ { rid := 0, user := 1, prayer := "Фаджр", date := 996, completed := true, completedAt := 0 },
    { rid := 1, user := 1, prayer := "Фаджр", date := 997, completed := true, completedAt := 0 },
    { rid := 2, user := 1, prayer := "Фаджр", date := 998, completed := true, completedAt := 0 },
    { rid := 3, user := 1, prayer := "Фаджр", date := 999, completed := true, completedAt := 0 },
    { rid := 4, user := 1, prayer := "Фаджр", date := 1000, completed := true, completedAt := 0 } ]

/-- store5 with the completion of day 1000 (today) removed. -/
def store4 : List StatRow :=
  [ { rid := 0, user := 1, prayer := "Фаджр", date := 996, completed := true, completedAt := 0 },
    { rid := 1, user := 1, prayer := "Фаджр", date := 997, completed := true, completedAt := 0 },
    { rid := 2, user := 1, prayer := "Фаджр", date := 998, completed := true, completedAt := 0 },
    { rid := 3, user := 1, prayer := "Фаджр", date := 999, completed := true, completedAt := 0 } ]

/-- Database.toggle_notifications: the users table reduced to the columns the
operation touches, (user_id, notifications_enabled).  The SELECT takes the
first row with the given user_id (user_id is the primary key, so at most one
exists); if none, the function falls through and returns None without
touching the store.  Otherwise the flag is negated, the UPDATE rewrites every
row of that user, and the new state is returned.  The result is the returned
value paired with the resulting table. -/
def toggle_notifications (db : List (Int × Bool)) (uid : Int) :
    Option Bool × List (Int × Bool) :=
  match db.find? (fun r => r.1 == uid) with
  | none => (none, db)
  | some r =>
    let ns := !r.2
    (some ns, db.map (fun x => if x.1 == uid then (x.1, ns) else x))

lemma hmValid_bounds {s : String} {h m : Int} (hv : hmValid? s = some (h, m)) :
    0 ≤ h ∧ h ≤ 23 ∧ 0 ≤ m ∧ m ≤ 59 := by
  unfold hmValid? at hv
  split at hv
  · split_ifs at hv with hcond
    simp only [Option.some.injEq, Prod.mk.injEq] at hv
    obtain ⟨rfl, rfl⟩ := hv
    exact hcond
  · exact absurd hv (by simp)

lemma clockSec_bounds {s : String} {t : Int} (h : clockSec? s = some t) :
    0 ≤ t ∧ t ≤ 86340 := by
  unfold clockSec? at h
  rcases hv : hmValid? s with _ | ⟨hh, mm⟩ <;> rw [hv] at h
  · exact absurd h (by simp)
  · simp only [Option.map_some', Option.some.injEq] at h
    obtain ⟨hb1, hb2, hb3, hb4⟩ := hmValid_bounds hv
    omega

lemma candidate_eq {s : String} {t0 : Int} (hcs : clockSec? s = some t0) (now : Int) :
    candidate now s = some (if t0 ≤ now then (t0 + 86400, true) else (t0, false)) := by
  simp [candidate, hcs]

lemma candidate_lt {now t : Int} {b : Bool} {s : String} (h0 : 0 ≤ now)
    (h1 : now < 86400) (hc : candidate now s = some (t, b)) : now < t := by
  unfold candidate at hc
  rcases hcs : clockSec? s with _ | t0 <;> rw [hcs] at hc
  · exact absurd hc (by simp)
  · obtain ⟨hb0, hb1⟩ := clockSec_bounds hcs
    simp only [Option.map_some', Option.some.injEq] at hc
    split_ifs at hc with hle <;>
      (simp only [Prod.mk.injEq] at hc; obtain ⟨rfl, -⟩ := hc; omega)

lemma candidate_empty (now : Int) : candidate now "" = none := rfl

lemma stepNext_skip {now : Int} {s : String} (h : candidate now s = none)
    (acc : Option (Prayer × String × Int × Bool)) (p : Prayer) :
    stepNext now acc p s = acc := by
  by_cases hs : s = "" <;> simp [stepNext, hs, h]

lemma stepNext_empty (now : Int) (acc : Option (Prayer × String × Int × Bool))
    (p : Prayer) : stepNext now acc p "" = acc := by
  simp [stepNext]

lemma stepNext_none_acc {now : Int} {s : String} {t : Int} {tom : Bool}
    (h : candidate now s = some (t, tom)) (p : Prayer) :
    stepNext now none p s = some (p, s, t - now, tom) := by
  have hs : ¬(s = "") := by
    rintro rfl
    rw [candidate_empty] at h
    cases h
  simp [stepNext, hs, h]

lemma stepNext_some_acc {now : Int} {s : String} {t : Int} {tom : Bool}
    (h : candidate now s = some (t, tom)) (p p0 : Prayer) (s0 : String) (dt0 : Int)
    (tom0 : Bool) :
    stepNext now (some (p0, s0, dt0, tom0)) p s =
      if t - now < dt0 then some (p, s, t - now, tom) else some (p0, s0, dt0, tom0) := by
  have hs : ¬(s = "") := by
    rintro rfl
    rw [candidate_empty] at h
    cases h
  simp [stepNext, hs, h]

/-- C1: for every well-formed 5-entry timing map and every current timestamp
within the day, get_next_prayer returns exactly one of the five prayers with
its raw time string, and the candidate time of the returned prayer has the
smallest (strictly positive, hence non-negative) forward delta from now
among the five, ties broken by canonical prayer order; in the scenario with
timings Fajr 05:10, Dhuhr 12:30, Asr 16:00, Maghrib 18:45, Isha 20:15 it
returns Isha at 20:15 same day for now 18:50, and Fajr at 05:10 marked
tomorrow for now 20:20. -/
theorem C1_next_prayer_minimal :
    (∀ (times : Timings) (now : Int), 0 ≤ now → now < 86400 →
      (∀ p ∈ prayer_names, (candidate now (times.get p)).isSome) →
      ∃ p tom, get_next_prayer times now = some (p, times.get p, tom) ∧
        ∀ tp bp, candidate now (times.get p) = some (tp, bp) →
          now < tp ∧
          ∀ q ∈ prayer_names, ∀ tq bq, candidate now (times.get q) = some (tq, bq) →
            tp ≤ tq ∧ (tp = tq → prayerIdx p ≤ prayerIdx q)) ∧
    get_next_prayer timingsEx 67800 = some (.isha, "20:15", false) ∧
    get_next_prayer timingsEx 73200 = some (.fajr, "05:10", true) := by
  refine ⟨?_, by decide, by decide⟩
  intro times now h0 h1 hwf
  obtain ⟨⟨t1, b1⟩, hc1⟩ := Option.isSome_iff_exists.mp (hwf .fajr (by simp [prayer_names]))
  obtain ⟨⟨t2, b2⟩, hc2⟩ := Option.isSome_iff_exists.mp (hwf .dhuhr (by simp [prayer_names]))
  obtain ⟨⟨t3, b3⟩, hc3⟩ := Option.isSome_iff_exists.mp (hwf .asr (by simp [prayer_names]))
  obtain ⟨⟨t4, b4⟩, hc4⟩ := Option.isSome_iff_exists.mp (hwf .maghrib (by simp [prayer_names]))
  obtain ⟨⟨t5, b5⟩, hc5⟩ := Option.isSome_iff_exists.mp (hwf .isha (by simp [prayer_names]))
  have P1 : now < t1 := candidate_lt h0 h1 hc1
  have P2 : now < t2 := candidate_lt h0 h1 hc2
  have P3 : now < t3 := candidate_lt h0 h1 hc3
  have P4 : now < t4 := candidate_lt h0 h1 hc4
  have P5 : now < t5 := candidate_lt h0 h1 hc5
  simp only [get_next_prayer, prayer_names, List.foldl]
  rw [stepNext_none_acc hc1, stepNext_some_acc hc2]
  split_ifs with h12
  all_goals rw [stepNext_some_acc hc3]
  all_goals split_ifs with h23
  all_goals rw [stepNext_some_acc hc4]
  all_goals split_ifs with h34
  all_goals rw [stepNext_some_acc hc5]
  all_goals split_ifs with h45
  all_goals simp only [Option.map_some']
  all_goals refine ⟨_, _, rfl, ?_⟩
  all_goals intro tp bp htp
  all_goals simp only [hc1, hc2, hc3, hc4, hc5, Option.some.injEq, Prod.mk.injEq] at htp
  all_goals obtain ⟨rfl, -⟩ := htp
  all_goals refine ⟨by omega, ?_⟩
  all_goals intro q hq tq bq hcq
  all_goals fin_cases hq
  all_goals simp only [hc1, hc2, hc3, hc4, hc5, Option.some.injEq, Prod.mk.injEq] at hcq
  all_goals obtain ⟨rfl, -⟩ := hcq
  all_goals simp only [prayerIdx]
  all_goals exact ⟨by omega, fun hEq => by omega⟩

/-- Witness for C1: the hypotheses are satisfied by the scenario timing map
at now 18:50 (67800 seconds). -/
theorem C1_next_prayer_minimal_witness :
    ∃ p tom, get_next_prayer timingsEx 67800 = some (p, timingsEx.get p, tom) ∧
      ∀ tp bp, candidate 67800 (timingsEx.get p) = some (tp, bp) →
        (67800 : Int) < tp ∧
        ∀ q ∈ prayer_names, ∀ tq bq, candidate 67800 (timingsEx.get q) = some (tq, bq) →
          tp ≤ tq ∧ (tp = tq → prayerIdx p ≤ prayerIdx q) :=
  C1_next_prayer_minimal.1 timingsEx 67800 (by decide) (by decide) (by decide)

lemma candidate_passed {s : String} {t0 : Int} (hcs : clockSec? s = some t0)
    (now : Int) (h : t0 ≤ now) : candidate now s = some (t0 + 86400, true) := by
  rw [candidate_eq hcs, if_pos h]

lemma candidate_upcoming {s : String} {t0 : Int} (hcs : clockSec? s = some t0)
    (now : Int) (h : ¬(t0 ≤ now)) : candidate now s = some (t0, false) := by
  rw [candidate_eq hcs, if_neg h]

/-- Counterexample to C5 as stated: a timing map in which now coincides
exactly with the clock time of Isha, yet the resolver returns Dhuhr (whose
time lies before Fajr in this map), not Fajr as the claim requires for the
Isha case.  The claim fails for timing maps whose times are not in canonical
order. -/
theorem C5_exact_time_counterexample :
    clockSec? (timingsC5.get .isha) = some 72000 ∧
    get_next_prayer timingsC5 72000 = some (.dhuhr, "05:00", true) ∧
    Prayer.dhuhr ≠ Prayer.fajr := by decide

/-- C5 amended: for every timing map whose five entries are well formed with
strictly increasing clock times in canonical order, when now equals the clock
time of prayer p exactly, that prayer is treated as already passed (the
comparison is strictly-after) and the resolver returns the prayer after p in
canonical order, wrapping to Fajr with the tomorrow annotation when p is
Isha. -/
theorem C5_exact_time_amended (times : Timings) (T : Prayer → Int) (p : Prayer)
    (hT : ∀ q, clockSec? (times.get q) = some (T q))
    (h12 : T .fajr < T .dhuhr) (h23 : T .dhuhr < T .asr)
    (h34 : T .asr < T .maghrib) (h45 : T .maghrib < T .isha) :
    get_next_prayer times (T p) =
      some (nextInOrder p, times.get (nextInOrder p), decide (p = Prayer.isha)) := by
  obtain ⟨hb1l, hb1u⟩ := clockSec_bounds (hT .fajr)
  obtain ⟨hb2l, hb2u⟩ := clockSec_bounds (hT .dhuhr)
  obtain ⟨hb3l, hb3u⟩ := clockSec_bounds (hT .asr)
  obtain ⟨hb4l, hb4u⟩ := clockSec_bounds (hT .maghrib)
  obtain ⟨hb5l, hb5u⟩ := clockSec_bounds (hT .isha)
  cases p
  case fajr =>
    have c1 := candidate_passed (hT Prayer.fajr) (T Prayer.fajr) (le_refl _)
    have c2 := candidate_upcoming (hT Prayer.dhuhr) (T Prayer.fajr) (by omega)
    have c3 := candidate_upcoming (hT Prayer.asr) (T Prayer.fajr) (by omega)
    have c4 := candidate_upcoming (hT Prayer.maghrib) (T Prayer.fajr) (by omega)
    have c5 := candidate_upcoming (hT Prayer.isha) (T Prayer.fajr) (by omega)
    simp only [get_next_prayer, prayer_names, List.foldl]
    rw [stepNext_none_acc c1, stepNext_some_acc c2]
    split_ifs with g1
    all_goals rw [stepNext_some_acc c3]
    all_goals split_ifs with g2
    all_goals rw [stepNext_some_acc c4]
    all_goals split_ifs with g3
    all_goals rw [stepNext_some_acc c5]
    all_goals split_ifs with g4
    all_goals simp only [Option.map_some']
    all_goals first
      | rfl
      | (exfalso; omega)
  case dhuhr =>
    have c1 := candidate_passed (hT Prayer.fajr) (T Prayer.dhuhr) (by omega)
    have c2 := candidate_passed (hT Prayer.dhuhr) (T Prayer.dhuhr) (le_refl _)
    have c3 := candidate_upcoming (hT Prayer.asr) (T Prayer.dhuhr) (by omega)
    have c4 := candidate_upcoming (hT Prayer.maghrib) (T Prayer.dhuhr) (by omega)
    have c5 := candidate_upcoming (hT Prayer.isha) (T Prayer.dhuhr) (by omega)
    simp only [get_next_prayer, prayer_names, List.foldl]
    rw [stepNext_none_acc c1, stepNext_some_acc c2]
    split_ifs with g1
    all_goals rw [stepNext_some_acc c3]
    all_goals split_ifs with g2
    all_goals rw [stepNext_some_acc c4]
    all_goals split_ifs with g3
    all_goals rw [stepNext_some_acc c5]
    all_goals split_ifs with g4
    all_goals simp only [Option.map_some']
    all_goals first
      | rfl
      | (exfalso; omega)
  case asr =>
    have c1 := candidate_passed (hT Prayer.fajr) (T Prayer.asr) (by omega)
    have c2 := candidate_passed (hT Prayer.dhuhr) (T Prayer.asr) (by omega)
    have c3 := candidate_passed (hT Prayer.asr) (T Prayer.asr) (le_refl _)
    have c4 := candidate_upcoming (hT Prayer.maghrib) (T Prayer.asr) (by omega)
    have c5 := candidate_upcoming (hT Prayer.isha) (T Prayer.asr) (by omega)
    simp only [get_next_prayer, prayer_names, List.foldl]
    rw [stepNext_none_acc c1, stepNext_some_acc c2]
    split_ifs with g1
    all_goals rw [stepNext_some_acc c3]
    all_goals split_ifs with g2
    all_goals rw [stepNext_some_acc c4]
    all_goals split_ifs with g3
    all_goals rw [stepNext_some_acc c5]
    all_goals split_ifs with g4
    all_goals simp only [Option.map_some']
    all_goals first
      | rfl
      | (exfalso; omega)
  case maghrib =>
    have c1 := candidate_passed (hT Prayer.fajr) (T Prayer.maghrib) (by omega)
    have c2 := candidate_passed (hT Prayer.dhuhr) (T Prayer.maghrib) (by omega)
    have c3 := candidate_passed (hT Prayer.asr) (T Prayer.maghrib) (by omega)
    have c4 := candidate_passed (hT Prayer.maghrib) (T Prayer.maghrib) (le_refl _)
    have c5 := candidate_upcoming (hT Prayer.isha) (T Prayer.maghrib) (by omega)
    simp only [get_next_prayer, prayer_names, List.foldl]
    rw [stepNext_none_acc c1, stepNext_some_acc c2]
    split_ifs with g1
    all_goals rw [stepNext_some_acc c3]
    all_goals split_ifs with g2
    all_goals rw [stepNext_some_acc c4]
    all_goals split_ifs with g3
    all_goals rw [stepNext_some_acc c5]
    all_goals split_ifs with g4
    all_goals simp only [Option.map_some']
    all_goals first
      | rfl
      | (exfalso; omega)
  case isha =>
    have c1 := candidate_passed (hT Prayer.fajr) (T Prayer.isha) (by omega)
    have c2 := candidate_passed (hT Prayer.dhuhr) (T Prayer.isha) (by omega)
    have c3 := candidate_passed (hT Prayer.asr) (T Prayer.isha) (by omega)
    have c4 := candidate_passed (hT Prayer.maghrib) (T Prayer.isha) (by omega)
    have c5 := candidate_passed (hT Prayer.isha) (T Prayer.isha) (le_refl _)
    simp only [get_next_prayer, prayer_names, List.foldl]
    rw [stepNext_none_acc c1, stepNext_some_acc c2]
    split_ifs with g1
    all_goals rw [stepNext_some_acc c3]
    all_goals split_ifs with g2
    all_goals rw [stepNext_some_acc c4]
    all_goals split_ifs with g3
    all_goals rw [stepNext_some_acc c5]
    all_goals split_ifs with g4
    all_goals simp only [Option.map_some']
    all_goals first
      | rfl
      | (exfalso; omega)

/-- Witness for C5 amended: the scenario timing map is strictly increasing;
at now exactly Maghrib (18:45, 67500 seconds) the resolver returns Isha. -/
theorem C5_exact_time_amended_witness :
    get_next_prayer timingsEx 67500 = some (Prayer.isha, "20:15", false) :=
  C5_exact_time_amended timingsEx exT .maghrib (by decide) (by decide) (by decide)
    (by decide) (by decide)

/-- C8: a prayer whose time string is malformed (unparseable or out of range)
is skipped without aborting the computation: the result is the same as if the
entry were absent, so the resolver still works over the remaining well-formed
entries; and when all five entries are malformed the resolver returns None
instead of raising. -/
theorem C8_malformed_skipped :
    (∀ (times : Timings) (now : Int) (p : Prayer),
      candidate now (times.get p) = none →
      get_next_prayer times now = get_next_prayer (times.set p "") now) ∧
    (∀ (times : Timings) (now : Int),
      (∀ p ∈ prayer_names, candidate now (times.get p) = none) →
      get_next_prayer times now = none) := by
  constructor
  · intro times now p hnone
    cases p
    all_goals simp only [Timings.get] at hnone
    all_goals simp only [get_next_prayer, prayer_names, List.foldl, Timings.set, Timings.get]
    all_goals rw [stepNext_skip hnone, stepNext_empty]
  · intro times now h
    have h1 := h .fajr (by simp [prayer_names])
    have h2 := h .dhuhr (by simp [prayer_names])
    have h3 := h .asr (by simp [prayer_names])
    have h4 := h .maghrib (by simp [prayer_names])
    have h5 := h .isha (by simp [prayer_names])
    simp only [get_next_prayer, prayer_names, List.foldl]
    rw [stepNext_skip h1, stepNext_skip h2, stepNext_skip h3, stepNext_skip h4,
      stepNext_skip h5]
    rfl

/-- Witness for C8: with Dhuhr set to a malformed string the resolver gives
the same answer as with the entry absent, and with all five entries malformed
it returns None. -/
theorem C8_malformed_skipped_witness :
    get_next_prayer timingsMal 100 = get_next_prayer (timingsMal.set .dhuhr "") 100 ∧
    get_next_prayer timingsBad 100 = none :=
  ⟨C8_malformed_skipped.1 timingsMal 100 .dhuhr (by decide),
   C8_malformed_skipped.2 timingsBad 100 (by decide)⟩

/-- C6: when the timing fetch fails (get_prayer_times returned None), the
scheduler returns early: no jobs are installed and none are removed, so the
prior schedule is left exactly as it was. -/
theorem C6_fetch_failure_schedule_unchanged (uid : String) (jobs : List Job) :
    schedule_prayer_notifications uid none jobs = some jobs := rfl

lemma prayerRu_inj {p q : Prayer} (h : prayerRu p = prayerRu q) : p = q := by
  cases p <;> cases q <;> first | rfl | exact absurd h (by decide)

lemma jobId_inj (uid : String) {p q : Prayer} (h : jobId uid p = jobId uid q) :
    p = q := by
  apply prayerRu_inj
  have hd := congrArg String.data h
  simp only [jobId, String.data_append, List.append_assoc] at hd
  have hd1 := List.append_cancel_left hd
  have hd2 := List.append_cancel_left hd1
  have hd3 := List.append_cancel_left hd2
  exact String.ext hd3

lemma jobId_beq_false (uid : String) {p q : Prayer} (h : p ≠ q) :
    (jobId uid p == jobId uid q) = false := by
  simp only [beq_eq_false_iff_ne, ne_eq]
  exact fun hEq => h (jobId_inj uid hEq)

lemma pyStartsWith_append (p r : List Char) : pyStartsWith p (p ++ r) = true := by
  induction p with
  | nil => rfl
  | cons c cs ih => simp [pyStartsWith, ih]

lemma pySubstr_of_startsWith {pat l : List Char} (h : pyStartsWith pat l = true) :
    pySubstr pat l = true := by
  cases l with
  | nil =>
    cases pat with
    | nil => rfl
    | cons c cs => exact absurd h (by simp [pyStartsWith])
  | cons t ts => simp [pySubstr, h]

lemma pySubstr_append_left (pat a l : List Char) (h : pySubstr pat l = true) :
    pySubstr pat (a ++ l) = true := by
  induction a with
  | nil => simpa using h
  | cons c cs ih => simp [pySubstr, ih]

lemma pySubstr_sandwich (a pat b : List Char) : pySubstr pat (a ++ (pat ++ b)) = true :=
  pySubstr_append_left pat a _ (pySubstr_of_startsWith (pyStartsWith_append pat b))

lemma pySubstr_jobId (uid : String) (p : Prayer) :
    pySubstr uid.data (jobId uid p).data = true := by
  have hshape : (jobId uid p).data =
      "prayer_".data ++ (uid.data ++ ("_" ++ prayerRu p).data) := by
    simp [jobId, String.data_append, List.append_assoc]
  rw [hshape]
  exact pySubstr_sandwich _ _ _

lemma isUserJob_jobId (uid : String) (p : Prayer) (h m : Int) :
    isUserJob uid { id := jobId uid p, hour := h, minute := m } = true := by
  cases p <;> simp [isUserJob]

lemma isUserJob_false_of_no_substr {uid : String} {j : Job}
    (hj : pySubstr uid.data j.id.data = false) : isUserJob uid j = false := by
  simp only [isUserJob, Bool.or_eq_false_iff, beq_eq_false_iff_ne, ne_eq]
  refine ⟨⟨⟨⟨?_, ?_⟩, ?_⟩, ?_⟩, ?_⟩
  all_goals intro hEq
  all_goals rw [hEq] at hj
  all_goals rw [pySubstr_jobId] at hj
  all_goals cases hj

/-- C2 fails on the code: the removal loop matches jobs by substring
containment of str(user_id) in the job id.  Here user 123 has five scheduled
jobs; a successful reschedule for the distinct user 12 removes all of them,
because the string 12 occurs inside prayer_123_... -/
theorem C2_reschedule_crosses_users :
    userJobs "123" jobs123 = jobs123 ∧
    schedule_prayer_notifications "12" (some timingsEx) jobs123 =
      some [ { id := "prayer_12_Фаджр", hour := 5, minute := 10 },
             { id := "prayer_12_Зухр", hour := 12, minute := 30 },
             { id := "prayer_12_Аср", hour := 16, minute := 0 },
             { id := "prayer_12_Магриб", hour := 18, minute := 45 },
             { id := "prayer_12_Иша", hour := 20, minute := 15 } ] ∧
    userJobs "123"
      [ { id := "prayer_12_Фаджр", hour := 5, minute := 10 },
        { id := "prayer_12_Зухр", hour := 12, minute := 30 },
        { id := "prayer_12_Аср", hour := 16, minute := 0 },
        { id := "prayer_12_Магриб", hour := 18, minute := 45 },
        { id := "prayer_12_Иша", hour := 20, minute := 15 } ] = [] := by decide

lemma foldlM_install (uid : String) (times : Timings) (ps : List Prayer)
    (acc result : List Job) (hnd : ps.Nodup)
    (hacc : ∀ j ∈ acc, ∀ p ∈ ps, j.id ≠ jobId uid p)
    (h : ps.foldlM (fun js p => (hmValid? (times.get p)).map
        (fun hm => add_job js { id := jobId uid p, hour := hm.1, minute := hm.2 })) acc
      = some result) :
    ∃ hm : Prayer → Int × Int,
      (∀ p ∈ ps, hmValid? (times.get p) = some (hm p)) ∧
      userJobs uid result = userJobs uid acc ++
        ps.map (fun p => { id := jobId uid p, hour := (hm p).1, minute := (hm p).2 }) := by
  induction ps generalizing acc result with
  | nil =>
    simp only [List.foldlM_nil] at h
    simp only [pure, Option.some.injEq] at h
    subst h
    exact ⟨fun _ => (0, 0), by simp, by simp⟩
  | cons p0 ptl ih =>
    rw [List.foldlM_cons] at h
    rcases hv : hmValid? (times.get p0) with _ | ⟨h0, m0⟩ <;> rw [hv] at h
    · simp at h
    · simp only [Option.map_some', Option.some_bind] at h
      have hp0 : p0 ∉ ptl := (List.nodup_cons.mp hnd).1
      have hnd' := (List.nodup_cons.mp hnd).2
      have hacc' : ∀ j ∈ add_job acc
          { id := jobId uid p0, hour := (h0, m0).1, minute := (h0, m0).2 },
          ∀ p ∈ ptl, j.id ≠ jobId uid p := by
        intro j hj p hp
        simp only [add_job, List.mem_append, List.mem_filter, List.mem_singleton] at hj
        rcases hj with ⟨hj1, -⟩ | rfl
        · exact hacc j hj1 p (List.mem_cons_of_mem _ hp)
        · intro hEq
          cases jobId_inj uid (show jobId uid p0 = jobId uid p from hEq)
          exact hp0 hp
      obtain ⟨hm', hall', hres'⟩ := ih _ result hnd' hacc' h
      have hfilter : acc.filter
          (fun x => !(x.id == jobId uid p0)) = acc := by
        apply List.filter_eq_self.mpr
        intro x hx
        simp [hacc x hx p0 (List.mem_cons_self _ _)]
      have hadd : userJobs uid (add_job acc
          { id := jobId uid p0, hour := (h0, m0).1, minute := (h0, m0).2 }) =
          userJobs uid acc ++
            [{ id := jobId uid p0, hour := (h0, m0).1, minute := (h0, m0).2 }] := by
        simp only [add_job, userJobs, List.filter_append, hfilter]
        simp [List.filter_cons, isUserJob_jobId]
      refine ⟨fun q => if q = p0 then (h0, m0) else hm' q, ?_, ?_⟩
      · intro p hp
        rcases List.mem_cons.mp hp with rfl | hp2
        · simpa using hv
        · have hne : p ≠ p0 := fun hEq => hp0 (hEq ▸ hp2)
          simp only [if_neg hne]
          exact hall' p hp2
      · rw [hres', hadd, List.append_assoc]
        congr 1
        rw [List.map_cons, List.singleton_append]
        congr 1
        · simp
        · apply List.map_congr_left
          intro q hq
          have hne : q ≠ p0 := fun hEq => hp0 (hEq ▸ hq)
          simp only [if_neg hne]

/-- C7: every successful invocation of the scheduler for a user leaves
exactly the five jobs of that user in the scheduler, one per actionable
prayer in canonical order, each carrying the hour and minute parsed from the
newly fetched timings — regardless of the prior state, so any sequence of
successful invocations maintains at most one live job per (user, prayer) and
exactly five jobs for the user, all reflecting the newest timings. -/
theorem C7_reschedule_exactly_five (uid : String) (times : Timings)
    (jobs result : List Job)
    (h : schedule_prayer_notifications uid (some times) jobs = some result) :
    ∃ hm : Prayer → Int × Int,
      (∀ p, hmValid? (times.get p) = some (hm p)) ∧
      userJobs uid result =
        prayer_names.map
          (fun p => { id := jobId uid p, hour := (hm p).1, minute := (hm p).2 }) := by
  simp only [schedule_prayer_notifications] at h
  have hacc : ∀ j ∈ jobs.filter (fun j => !(pySubstr uid.data j.id.data)),
      ∀ p ∈ prayer_names, j.id ≠ jobId uid p := by
    intro j hj p hp hEq
    have hsub := (List.mem_filter.mp hj).2
    rw [hEq, pySubstr_jobId] at hsub
    cases hsub
  obtain ⟨hm, hall, hres⟩ :=
    foldlM_install uid times prayer_names _ result (by decide) hacc h
  refine ⟨hm, fun p => hall p (by cases p <;> simp [prayer_names]), ?_⟩
  rw [hres]
  have hnil : userJobs uid (jobs.filter (fun j => !(pySubstr uid.data j.id.data))) = [] := by
    apply List.filter_eq_nil_iff.mpr
    intro j hj
    have hsub := (List.mem_filter.mp hj).2
    have : pySubstr uid.data j.id.data = false := by
      cases hpy : pySubstr uid.data j.id.data
      · rfl
      · rw [hpy] at hsub
        cases hsub
    simp [isUserJob_false_of_no_substr this]
  rw [hnil, List.nil_append]

/-- Witness for C7: a successful invocation for user 7 on an empty scheduler
with the scenario timings yields exactly the five jobs of user 7. -/
theorem C7_reschedule_exactly_five_witness :
    ∃ hm : Prayer → Int × Int,
      (∀ p, hmValid? (timingsEx.get p) = some (hm p)) ∧
      userJobs "7" jobs7 =
        prayer_names.map
          (fun p => { id := jobId "7" p, hour := (hm p).1, minute := (hm p).2 }) :=
  C7_reschedule_exactly_five "7" timingsEx [] jobs7 (by decide)

lemma streakLoop_stop {db : List StatRow} {user today : Int} {streak : Nat} {cd : Int}
    (fuel : Nat) (h : day_stats db user today cd = []) :
    streakLoop db user today (fuel + 1) streak cd = streak := by
  simp [streakLoop, h]

lemma streakLoop_go {db : List StatRow} {user today : Int} {streak : Nat} {cd : Int}
    (fuel : Nat) (h : day_stats db user today cd ≠ []) (hcap : streak + 1 ≤ 100) :
    streakLoop db user today (fuel + 1) streak cd =
      streakLoop db user today fuel (streak + 1) (cd - 1) := by
  have hne : (day_stats db user today cd).isEmpty = false := by
    cases hd : day_stats db user today cd with
    | nil => exact absurd hd h
    | cons a l => rfl
  have hlt : ¬(streak + 1 > 100) := by omega
  simp [streakLoop, hne, hlt]

/-- The fetch inside the loop uses days=1, so no row dated two or more days
before today is ever visible to the walk. -/
lemma day_stats_before_yesterday (db : List StatRow) (user today cd : Int)
    (h : cd ≤ today - 2) : day_stats db user today cd = [] := by
  apply List.filter_eq_nil_iff.mpr
  intro r hr
  simp only [get_prayer_stats, List.mem_filter, Bool.and_eq_true, beq_iff_eq,
    decide_eq_true_eq] at hr
  obtain ⟨-, -, hdate⟩ := hr
  simp only [Bool.and_eq_true, beq_iff_eq, not_and]
  intro hdate2
  exfalso
  omega

/-- C3 fails on the code: with a completed prayer on each of the five
consecutive days 996..1000 (1000 being today) and nothing earlier,
calculate_streak returns 2, not 5, because every iteration re-fetches the
stats with days=1 and therefore only ever sees rows dated yesterday or today.
The second half of the claim holds: with the completion of today removed the
result is 0. -/
theorem C3_streak_days1_fetch :
    calculate_streak store5 1 1000 = 2 ∧ calculate_streak store4 1 1000 = 0 := by decide

/-- C9: for every store, user and date the streak computation terminates with
a value that never exceeds 100: the walk stops at the first day whose
fetched, date-filtered stats are empty, which happens within two steps
because the days=1 fetch hides everything older than yesterday; the 100-cap
break is therefore never even reached. -/
theorem C9_streak_terminates_bounded (db : List StatRow) (user today : Int) :
    calculate_streak db user today ≤ 100 := by
  have h2 : day_stats db user today (today - 1 - 1) = [] :=
    day_stats_before_yesterday db user today _ (by omega)
  by_cases h0 : day_stats db user today today = []
  · have e0 : calculate_streak db user today = 0 := streakLoop_stop 100 h0
    omega
  · by_cases h1 : day_stats db user today (today - 1) = []
    · have e1 : calculate_streak db user today = streakLoop db user today 100 1 (today - 1) :=
        streakLoop_go 100 h0 (by omega)
      have e2 : streakLoop db user today 100 1 (today - 1) = 1 := streakLoop_stop 99 h1
      omega
    · have e1 : calculate_streak db user today = streakLoop db user today 100 1 (today - 1) :=
        streakLoop_go 100 h0 (by omega)
      have e2 : streakLoop db user today 100 1 (today - 1) =
          streakLoop db user today 99 2 (today - 1 - 1) := streakLoop_go 99 h1 (by omega)
      have e3 : streakLoop db user today 99 2 (today - 1 - 1) = 2 := streakLoop_stop 98 h2
      omega

/-- C4 fails on the code in its SQLite backend: the prayer_stats table is
created without a UNIQUE constraint on (user_id, prayer_name, prayer_date),
so the INSERT OR REPLACE of mark_prayer_completed never meets a conflict and
simply inserts a fresh row.  Marking the same (user, prayer, date) twice
leaves two stored completed rows, and the stats query sees a different row
count after one call and after two. -/
theorem C4_mark_completed_not_idempotent :
    ((mark_prayer_completed (mark_prayer_completed [] 1 "Фаджр" 0 10) 1 "Фаджр" 0 20).filter
        (fun r => r.user == 1 && r.prayer == "Фаджр" && r.date == 0 && r.completed)).length
      = 2 ∧
    (get_prayer_stats (mark_prayer_completed [] 1 "Фаджр" 0 10) 1 0 30).length = 1 ∧
    (get_prayer_stats
        (mark_prayer_completed (mark_prayer_completed [] 1 "Фаджр" 0 10) 1 "Фаджр" 0 20)
        1 0 30).length = 2 := by decide

lemma map_id_of_mem {α : Type} {f : α → α} {l : List α} (h : ∀ x ∈ l, f x = x) :
    l.map f = l := by
  induction l with
  | nil => rfl
  | cons a t ih =>
    rw [List.map_cons, h a (List.mem_cons_self a t),
      ih (fun x hx => h x (List.mem_cons_of_mem a hx))]

/-- user_id is the primary key of the users table, so the keys are distinct
and the row returned by the SELECT is the only row of that user. -/
lemma find_unique {db : List (Int × Bool)} {uid : Int} {b : Bool}
    (hnd : (db.map Prod.fst).Nodup)
    (hf : db.find? (fun r => r.1 == uid) = some (uid, b)) :
    ∀ x ∈ db, x.1 = uid → x = (uid, b) := by
  induction db with
  | nil => intro x hx; cases hx
  | cons y t ih =>
    intro x hx hxu
    have hnd2 := List.nodup_cons.mp hnd
    by_cases hy : (y.1 == uid) = true
    · rw [show (y :: t).find? (fun r => r.1 == uid) = some y from
        List.find?_cons_of_pos _ hy] at hf
      simp only [Option.some.injEq] at hf
      rcases List.mem_cons.mp hx with rfl | hx2
      · rw [← hf]
      · exfalso
        apply hnd2.1
        rw [show y.1 = uid from beq_iff_eq.mp hy, ← hxu]
        exact List.mem_map.mpr ⟨x, hx2, rfl⟩
    · rw [show (y :: t).find? (fun r => r.1 == uid) = t.find? (fun r => r.1 == uid) from
        List.find?_cons_of_neg _ hy] at hf
      rcases List.mem_cons.mp hx with rfl | hx2
      · exact absurd (beq_iff_eq.mpr hxu) hy
      · exact ih hnd2.2 hf x hx2 hxu

lemma find?_map_keyed {l : List (Int × Bool)} {uid : Int} {nb : Bool} {r : Int × Bool}
    (h : l.find? (fun r => r.1 == uid) = some r) :
    (l.map (fun x => if x.1 == uid then (x.1, nb) else x)).find? (fun r => r.1 == uid)
      = some (r.1, nb) := by
  induction l with
  | nil => cases h
  | cons y t ih =>
    by_cases hy : (y.1 == uid) = true
    · rw [show (y :: t).find? (fun r => r.1 == uid) = some y from
        List.find?_cons_of_pos _ hy] at h
      simp only [Option.some.injEq] at h
      subst h
      rw [List.map_cons, if_pos hy]
      rw [show ((y.1, nb) :: t.map (fun x => if x.1 == uid then (x.1, nb) else x)).find?
          (fun r => r.1 == uid) = some (y.1, nb) from List.find?_cons_of_pos _ hy]
    · rw [show (y :: t).find? (fun r => r.1 == uid) = t.find? (fun r => r.1 == uid) from
        List.find?_cons_of_neg _ hy] at h
      rw [List.map_cons, if_neg hy]
      rw [show (y :: t.map (fun x => if x.1 == uid then (x.1, nb) else x)).find?
          (fun r => r.1 == uid) =
          (t.map (fun x => if x.1 == uid then (x.1, nb) else x)).find?
            (fun r => r.1 == uid) from List.find?_cons_of_neg _ hy]
      exact ih h

/-- C10: for a user with no stored record, toggle_notifications returns None
and leaves the users table unchanged; for a stored user (the table keys being
unique, as user_id is the primary key) it returns the negation of the stored
notifications flag, and toggling twice returns the original flag and restores
the table exactly. -/
theorem C10_toggle_notifications_spec (db : List (Int × Bool)) (uid : Int) :
    (db.find? (fun r => r.1 == uid) = none → toggle_notifications db uid = (none, db)) ∧
    (∀ b : Bool, (db.map Prod.fst).Nodup →
      db.find? (fun r => r.1 == uid) = some (uid, b) →
      (toggle_notifications db uid).1 = some (!b) ∧
      (toggle_notifications (toggle_notifications db uid).2 uid).1 = some b ∧
      (toggle_notifications (toggle_notifications db uid).2 uid).2 = db) := by
  constructor
  · intro hf
    simp [toggle_notifications, hf]
  · intro b hnd hf
    have e1 : toggle_notifications db uid =
        (some (!b), db.map (fun x => if x.1 == uid then (x.1, !b) else x)) := by
      simp [toggle_notifications, hf]
    have hf1 : (db.map (fun x => if x.1 == uid then (x.1, !b) else x)).find?
        (fun r => r.1 == uid) = some (uid, !b) := find?_map_keyed hf
    have e2 : toggle_notifications
        (db.map (fun x => if x.1 == uid then (x.1, !b) else x)) uid =
        (some b, (db.map (fun x => if x.1 == uid then (x.1, !b) else x)).map
          (fun x => if x.1 == uid then (x.1, b) else x)) := by
      simp only [toggle_notifications, hf1, Bool.not_not]
    have e3 : (db.map (fun x => if x.1 == uid then (x.1, !b) else x)).map
        (fun x => if x.1 == uid then (x.1, b) else x) = db := by
      rw [List.map_map]
      apply map_id_of_mem
      intro x hx
      by_cases hxu : (x.1 == uid) = true
      · have hxb : x = (uid, b) := find_unique hnd hf x hx (beq_iff_eq.mp hxu)
        subst hxb
        simp [Function.comp]
      · have hxf : (x.1 == uid) = false := by simpa using hxu
        simp [Function.comp, hxf]
    rw [e1]
    dsimp only
    rw [e2]
    exact ⟨rfl, rfl, e3⟩

/-- Witness for C10: a two-user table with unique keys; toggling user 5 twice
returns false then true and restores the table; user 7 has no record. -/
theorem C10_toggle_notifications_spec_witness :
    (toggle_notifications [(5, true), (6, false)] 5).1 = some false ∧
    (toggle_notifications (toggle_notifications [(5, true), (6, false)] 5).2 5).1
      = some true ∧
    (toggle_notifications (toggle_notifications [(5, true), (6, false)] 5).2 5).2
      = [(5, true), (6, false)] ∧
    toggle_notifications [(5, true), (6, false)] 7 = (none, [(5, true), (6, false)]) := by
  have h := (C10_toggle_notifications_spec [(5, true), (6, false)] 5).2 true
    (by decide) (by decide)
  have h2 := (C10_toggle_notifications_spec [(5, true), (6, false)] 7).1 (by decide)
  exact ⟨h.1, h.2.1, h.2.2, h2⟩
